import Mathlib

set_option maxHeartbeats 1000000

/-!
A shallow embedding of the tic-tac-toe engine implemented by the class
TicTacToeApp in src/tic_tac_toe_gui.py, together with theorems about its
behaviour.

Presentation-only effects (window, labels, button widgets, message boxes,
the 500 ms scheduling delay) are dropped.  The message box shown on game
over is reflected in the `ClickOutcome` value returned next to the new
state, and the delayed firing of `computer_move` is modelled by allowing
a `computer_move` step from any state (the callback reads the live state
when it fires).  Every definition below is a direct transcription of the
Python source, with the line range of the transcribed code noted in its
doc comment.
-/

/-- A player mark: the Python strings "X" and "O". -/
inductive Mark where
  | X
  | O
deriving DecidableEq, Repr

/-- A board cell: `none` is the Python empty string "", `some m` a mark. -/
abbrev Cell := Option Mark

/-- The game mode: the Python strings "PvP" and "PvE". -/
inductive Mode where
  | PvP
  | PvE
deriving DecidableEq, Repr

/-- The mutable state of a `TicTacToeApp` instance: `current_player`
(line 19), `board` (line 29, a Python list of nine cells), and
`game_mode` (line 36).  Widget fields are presentation only. -/
structure GameState where
  current_player : Mark
  board : List Cell
  game_mode : Mode
deriving DecidableEq, Repr

/-- The game result a click announces via a message box:
`Win m` models the "Player m wins!" box (line 116), `Draw` the
"It's a Draw!" box (line 122), `InProgress` no box at all. -/
inductive GameResult where
  | InProgress
  | Win (m : Mark)
  | Draw
deriving DecidableEq, Repr

/-- What a call to `on_button_click` did: `rejected` is the early
return on an occupied cell (lines 107-108), `moved r` a move that was
applied and evaluated to result `r`. -/
inductive ClickOutcome where
  | rejected
  | moved (r : GameResult)
deriving DecidableEq, Repr

/-- Python list-indexing semantics for a list of length `n`: an index
`0 ≤ i < n` denotes position `i`, an index `-n ≤ i < 0` denotes
position `n + i`, and anything else raises IndexError (`none`). -/
def pyIdx (n : Nat) (i : Int) : Option Nat :=
  if 0 ≤ i ∧ i < (n : Int) then some i.toNat
  else if -(n : Int) ≤ i ∧ i < 0 then some (i + (n : Int)).toNat
  else none

/-- Reading board cell `i`; the board always has length 9, so the
default only pads the out-of-range case. -/
def cellAt (b : List Cell) (i : Nat) : Cell := b.getD i none

/-- The state built by `__init__` (lines 19, 29, 36): player X, an
all-empty board of nine cells, mode "PvE". -/
def initial : GameState :=
  { current_player := Mark.X, board := List.replicate 9 none, game_mode := Mode.PvE }

/-- `reset_game` (lines 178-186): player back to X, board cleared.
Clearing the button texts and the status label is presentation only. -/
def reset_game (s : GameState) : GameState :=
  { s with current_player := Mark.X, board := List.replicate 9 none }

/-- `set_mode` (lines 91-97): store the new mode, then `reset_game`.
The "Mode Changed" info box is presentation only. -/
def set_mode (s : GameState) (m : Mode) : GameState :=
  reset_game { s with game_mode := m }

/-- `switch_player` (lines 134-142): toggle X and O. -/
def switch_player (s : GameState) : GameState :=
  { s with current_player := if s.current_player = Mark.X then Mark.O else Mark.X }

/-- `winning_combos` (lines 154-158): three rows, three columns, two
diagonals. -/
def winning_combos : List (Nat × Nat × Nat) :=
  [(0, 1, 2), (3, 4, 5), (6, 7, 8),
   (0, 3, 6), (1, 4, 7), (2, 5, 8),
   (0, 4, 8), (2, 4, 6)]

/-- `check_winner` (lines 144-164): some combo has all three cells
equal to `p`. -/
def check_winner (b : List Cell) (p : Mark) : Bool :=
  winning_combos.any (fun t =>
    decide (cellAt b t.1 = some p) && decide (cellAt b t.2.1 = some p) &&
      decide (cellAt b t.2.2 = some p))

/-- Lines 114-132 of `on_button_click`, run after the clicked cell has
been written: win check, then draw check, then `switch_player`.
(The PvE scheduling of `computer_move` in lines 130-132 changes no
engine state; the callback is modelled as a separate `computer_move`
step.) -/
def move_outcome (s : GameState) : GameState × ClickOutcome :=
  if check_winner s.board s.current_player then
    (reset_game s, ClickOutcome.moved (GameResult.Win s.current_player))
  else if none ∉ s.board then
    (reset_game s, ClickOutcome.moved GameResult.Draw)
  else
    (switch_player s, ClickOutcome.moved GameResult.InProgress)

/-- The body of `on_button_click` (lines 106-132) once the index has
resolved to position `i`: reject an occupied cell, otherwise write the
current player's mark there and evaluate. -/
def click_at (s : GameState) (i : Nat) : GameState × ClickOutcome :=
  if cellAt s.board i ≠ none then (s, ClickOutcome.rejected)
  else move_outcome { s with board := s.board.set i (some s.current_player) }

/-- `on_button_click` (lines 99-132) with Python indexing of
`self.board[index]`: `none` models an IndexError raised by line 107
(before any mutation) and propagating to the caller. -/
def on_button_click (s : GameState) (index : Int) : Option (GameState × ClickOutcome) :=
  match pyIdx s.board.length index with
  | none => none
  | some i => some (click_at s i)

/-- Line 170: the indices of all empty cells, in enumeration order. -/
def available_moves (b : List Cell) : List Nat :=
  (List.range b.length).filter (fun i => decide (cellAt b i = none))

/-- The selection step of `computer_move` (lines 170-174):
`random.choice(available_moves)` is modelled by an arbitrary draw
`k`, reduced modulo the number of choices; `none` when
`available_moves` is empty and no move is made. -/
def chooseComputerMove (s : GameState) (k : Nat) : Option Nat :=
  let avail := available_moves s.board
  if avail.isEmpty then none
  else some (avail.getD (k % avail.length) 0)

/-- `computer_move` (lines 166-176): pick a random empty cell, if any,
and click it.  It reads the live state at the moment it fires and does
not consult mode or current player. -/
def computer_move (s : GameState) (k : Nat) : GameState × Option ClickOutcome :=
  match chooseComputerMove s k with
  | none => (s, none)
  | some i => ((click_at s i).1, some (click_at s i).2)

/-- Number of cells holding mark `m`. -/
def countMark (b : List Cell) (m : Mark) : Nat :=
  b.countP (fun c => decide (c = some m))

/-- The states the running application can be in: the initial state,
and everything produced from a reachable state by a grid click, a
firing of the scheduled `computer_move` callback (with any random
draw), the Reset button, or a mode change from the Settings menu. -/
inductive Reachable : GameState → Prop where
  | init : Reachable initial
  | click (s : GameState) (i : Int) (p : GameState × ClickOutcome) :
      Reachable s → on_button_click s i = some p → Reachable p.1
  | computer (s : GameState) (k : Nat) :
      Reachable s → Reachable (computer_move s k).1
  | reset (s : GameState) : Reachable s → Reachable (reset_game s)
  | mode (s : GameState) (m : Mode) : Reachable s → Reachable (set_mode s m)

/-- Modelled from the spec's words, for the refinement claim about the
win check: a mark `m` has won iff at least one of the eight fixed lines
(0,1,2),(3,4,5),(6,7,8),(0,3,6),(1,4,7),(2,5,8),(0,4,8),(2,4,6) has all
three indexed cells equal to `m`. -/
def spec_win (b : List Cell) (m : Mark) : Prop :=
  (cellAt b 0 = some m ∧ cellAt b 1 = some m ∧ cellAt b 2 = some m) ∨
  (cellAt b 3 = some m ∧ cellAt b 4 = some m ∧ cellAt b 5 = some m) ∨
  (cellAt b 6 = some m ∧ cellAt b 7 = some m ∧ cellAt b 8 = some m) ∨
  (cellAt b 0 = some m ∧ cellAt b 3 = some m ∧ cellAt b 6 = some m) ∨
  (cellAt b 1 = some m ∧ cellAt b 4 = some m ∧ cellAt b 7 = some m) ∨
  (cellAt b 2 = some m ∧ cellAt b 5 = some m ∧ cellAt b 8 = some m) ∨
  (cellAt b 0 = some m ∧ cellAt b 4 = some m ∧ cellAt b 8 = some m) ∨
  (cellAt b 2 = some m ∧ cellAt b 4 = some m ∧ cellAt b 6 = some m)

/-- An invariant of every reachable state: the board keeps its nine
cells, no winning line is ever left standing (a completed line resets
the game at once), an empty cell always remains, and the mark counts
track whose turn it is. -/
structure EngineInv (s : GameState) : Prop where
  len : s.board.length = 9
  nowin : ∀ m, check_winner s.board m = false
  hasEmpty : none ∈ s.board
  counts : if s.current_player = Mark.X
    then countMark s.board Mark.X = countMark s.board Mark.O
    else countMark s.board Mark.X = countMark s.board Mark.O + 1

theorem pyIdx_lt (n : Nat) (i : Int) (j : Nat) (h : pyIdx n i = some j) : j < n := by
  unfold pyIdx at h
  split at h
  · injection h with h'
    subst h'
    omega
  · split at h
    · injection h with h'
      subst h'
      omega
    · cases h

theorem on_button_click_eq_click_at (s : GameState) (i : Int) (j : Nat)
    (hj : pyIdx s.board.length i = some j) :
    on_button_click s i = some (click_at s j) := by
  unfold on_button_click
  rw [hj]

theorem cellAt_set_self (b : List Cell) (i : Nat) (v : Cell) (h : i < b.length) :
    cellAt (b.set i v) i = v := by
  simp [cellAt, List.getD_eq_getElem?_getD, List.getElem?_set, h]

theorem cellAt_set_ne (b : List Cell) (i j : Nat) (v : Cell) (h : i ≠ j) :
    cellAt (b.set i v) j = cellAt b j := by
  simp [cellAt, List.getD_eq_getElem?_getD, List.getElem?_set, h]

theorem cellAt_set_of_ne_mark (b : List Cell) (i j : Nat) (p m : Mark)
    (hi : i < b.length) (hm : m ≠ p)
    (h : cellAt (b.set i (some p)) j = some m) : cellAt b j = some m := by
  by_cases hij : i = j
  · subst hij
    rw [cellAt_set_self b i (some p) hi] at h
    injection h with h'
    exact absurd h'.symm hm
  · rwa [cellAt_set_ne b i j (some p) hij] at h

theorem check_winner_any (b : List Cell) (m : Mark) :
    check_winner b m = true ↔
      ∃ t ∈ winning_combos, cellAt b t.1 = some m ∧ cellAt b t.2.1 = some m ∧
        cellAt b t.2.2 = some m := by
  simp [check_winner, List.any_eq_true, and_assoc]

theorem check_winner_set_false (b : List Cell) (i : Nat) (p m : Mark)
    (hi : i < b.length) (hm : m ≠ p) (h : check_winner b m = false) :
    check_winner (b.set i (some p)) m = false := by
  cases hw : check_winner (b.set i (some p)) m with
  | false => rfl
  | true =>
    exfalso
    rw [check_winner_any] at hw
    obtain ⟨t, ht, h1, h2, h3⟩ := hw
    have hb : check_winner b m = true :=
      (check_winner_any b m).mpr
        ⟨t, ht, cellAt_set_of_ne_mark b i t.1 p m hi hm h1,
          cellAt_set_of_ne_mark b i t.2.1 p m hi hm h2,
          cellAt_set_of_ne_mark b i t.2.2 p m hi hm h3⟩
    rw [h] at hb
    exact Bool.false_ne_true hb

theorem countP_set (p : Cell → Bool) (l : List Cell) (i : Nat) (v : Cell)
    (h : i < l.length) :
    (l.set i v).countP p + (if p (l.getD i none) then 1 else 0)
      = l.countP p + (if p v then 1 else 0) := by
  induction l generalizing i with
  | nil => simp at h
  | cons a t ih =>
    cases i with
    | zero =>
      simp only [List.set_cons_zero, List.countP_cons, List.getD_cons_zero]
      omega
    | succ n =>
      have hn : n < t.length := by simpa using h
      have ih' := ih n hn
      simp only [List.set_cons_succ, List.countP_cons, List.getD_cons_succ]
      omega

theorem countMark_set_self (b : List Cell) (i : Nat) (p : Mark)
    (hi : i < b.length) (he : cellAt b i = none) :
    countMark (b.set i (some p)) p = countMark b p + 1 := by
  unfold countMark
  have h := countP_set (fun c => decide (c = some p)) b i (some p) hi
  rw [show b.getD i none = none from he] at h
  simp at h
  exact h

theorem countMark_set_other (b : List Cell) (i : Nat) (p m : Mark)
    (hi : i < b.length) (he : cellAt b i = none) (hm : m ≠ p) :
    countMark (b.set i (some p)) m = countMark b m := by
  unfold countMark
  have h := countP_set (fun c => decide (c = some m)) b i (some p) hi
  rw [show b.getD i none = none from he] at h
  simp [Ne.symm hm] at h
  exact h

theorem inv_initial : EngineInv initial := by
  refine ⟨by decide, ?_, by decide, by decide⟩
  intro m
  cases m <;> decide

theorem inv_reset (s : GameState) : EngineInv (reset_game s) := by
  refine ⟨?_, ?_, ?_, ?_⟩
  · show (List.replicate 9 (none : Cell)).length = 9
    decide
  · intro m
    show check_winner (List.replicate 9 none) m = false
    cases m <;> decide
  · show (none : Cell) ∈ List.replicate 9 (none : Cell)
    decide
  · show if Mark.X = Mark.X
        then countMark (List.replicate 9 none) Mark.X
          = countMark (List.replicate 9 none) Mark.O
        else countMark (List.replicate 9 none) Mark.X
          = countMark (List.replicate 9 none) Mark.O + 1
    decide

theorem move_outcome_inv (s : GameState)
    (hlen : s.board.length = 9)
    (hnw : ∀ m, m ≠ s.current_player → check_winner s.board m = false)
    (hcnt : (s.current_player = Mark.X ∧
              countMark s.board Mark.X = countMark s.board Mark.O + 1) ∨
            (s.current_player = Mark.O ∧
              countMark s.board Mark.X = countMark s.board Mark.O)) :
    EngineInv (move_outcome s).1 := by
  cases hwin : check_winner s.board s.current_player with
  | true =>
    have h1 : (move_outcome s).1 = reset_game s := by simp [move_outcome, hwin]
    rw [h1]
    exact inv_reset s
  | false =>
    by_cases hfull : none ∈ s.board
    · have h1 : (move_outcome s).1 = switch_player s := by
        simp [move_outcome, hwin, hfull]
      rw [h1]
      refine ⟨?_, ?_, ?_, ?_⟩
      · simpa [switch_player] using hlen
      · intro m
        show check_winner s.board m = false
        by_cases hmp : m = s.current_player
        · rw [hmp]; exact hwin
        · exact hnw m hmp
      · exact hfull
      · rcases hcnt with ⟨hx, hc⟩ | ⟨ho, hc⟩
        · simp only [switch_player, hx]
          simpa using hc
        · simp only [switch_player, ho]
          simpa using hc
    · have h1 : (move_outcome s).1 = reset_game s := by
        simp [move_outcome, hwin, hfull]
      rw [h1]
      exact inv_reset s

theorem click_at_inv (s : GameState) (i : Nat) (hs : EngineInv s)
    (hi : i < s.board.length) : EngineInv (click_at s i).1 := by
  by_cases hc : cellAt s.board i = none
  · have h1 : click_at s i
        = move_outcome { s with board := s.board.set i (some s.current_player) } := by
      simp [click_at, hc]
    rw [h1]
    apply move_outcome_inv
    · simpa using hs.len
    · intro m hm
      show check_winner (s.board.set i (some s.current_player)) m = false
      exact check_winner_set_false s.board i s.current_player m hi hm (hs.nowin m)
    · have hcnt := hs.counts
      cases hp : s.current_player with
      | X =>
        left
        refine ⟨rfl, ?_⟩
        rw [hp] at hcnt
        simp at hcnt
        show countMark (s.board.set i (some Mark.X)) Mark.X
          = countMark (s.board.set i (some Mark.X)) Mark.O + 1
        rw [countMark_set_self s.board i Mark.X hi hc,
          countMark_set_other s.board i Mark.X Mark.O hi hc (by decide)]
        omega
      | O =>
        right
        refine ⟨rfl, ?_⟩
        rw [hp] at hcnt
        simp at hcnt
        show countMark (s.board.set i (some Mark.O)) Mark.X
          = countMark (s.board.set i (some Mark.O)) Mark.O
        rw [countMark_set_self s.board i Mark.O hi hc,
          countMark_set_other s.board i Mark.O Mark.X hi hc (by decide)]
        omega
  · have h1 : (click_at s i).1 = s := by simp [click_at, hc]
    rw [h1]
    exact hs

theorem on_button_click_inv (s : GameState) (i : Int) (p : GameState × ClickOutcome)
    (hs : EngineInv s) (h : on_button_click s i = some p) : EngineInv p.1 := by
  unfold on_button_click at h
  cases hidx : pyIdx s.board.length i with
  | none => rw [hidx] at h; cases h
  | some j =>
    rw [hidx] at h
    injection h with h'
    rw [← h']
    exact click_at_inv s j hs (pyIdx_lt s.board.length i j hidx)

theorem mem_available_moves (b : List Cell) (j : Nat) :
    j ∈ available_moves b ↔ j < b.length ∧ cellAt b j = none := by
  simp [available_moves, List.mem_filter, List.mem_range]

theorem chooseComputerMove_mem (s : GameState) (k : Nat) (j : Nat)
    (h : chooseComputerMove s k = some j) : j ∈ available_moves s.board := by
  simp only [chooseComputerMove] at h
  split at h
  · cases h
  · rename_i hne
    injection h with h'
    have hpos : 0 < (available_moves s.board).length := by
      cases hav : available_moves s.board with
      | nil => rw [hav] at hne; simp at hne
      | cons a t => simp [hav]
    have hlt : k % (available_moves s.board).length < (available_moves s.board).length :=
      Nat.mod_lt k hpos
    rw [← h', List.getD_eq_getElem?_getD, List.getElem?_eq_getElem hlt]
    exact List.getElem_mem hlt

theorem computer_move_inv (s : GameState) (k : Nat) (hs : EngineInv s) :
    EngineInv (computer_move s k).1 := by
  cases hch : chooseComputerMove s k with
  | none =>
    have h1 : (computer_move s k).1 = s := by simp [computer_move, hch]
    rw [h1]
    exact hs
  | some j =>
    have hmem := (mem_available_moves s.board j).mp (chooseComputerMove_mem s k j hch)
    have h1 : (computer_move s k).1 = (click_at s j).1 := by simp [computer_move, hch]
    rw [h1]
    exact click_at_inv s j hs hmem.1

theorem reachable_inv (s : GameState) (h : Reachable s) : EngineInv s := by
  induction h with
  | init => exact inv_initial
  | click s i p hr hob ih => exact on_button_click_inv s i p ih hob
  | computer s k hr ih => exact computer_move_inv s k ih
  | reset s hr ih => exact inv_reset s
  | mode s m hr ih => exact inv_reset _

/-- C1: for every board and mark `m`, `check_winner` returns true for
`m` iff at least one of the eight fixed lines (0,1,2),(3,4,5),(6,7,8),
(0,3,6),(1,4,7),(2,5,8),(0,4,8),(2,4,6) has all three indexed cells
equal to `m`. -/
theorem check_winner_iff_spec_win (b : List Cell) (m : Mark) :
    check_winner b m = true ↔ spec_win b m := by
  rw [check_winner_any]
  unfold spec_win
  constructor
  · rintro ⟨t, ht, h1, h2, h3⟩
    simp only [winning_combos, List.mem_cons, List.not_mem_nil, or_false] at ht
    rcases ht with rfl | rfl | rfl | rfl | rfl | rfl | rfl | rfl
    · exact Or.inl ⟨h1, h2, h3⟩
    · exact Or.inr (Or.inl ⟨h1, h2, h3⟩)
    · exact Or.inr (Or.inr (Or.inl ⟨h1, h2, h3⟩))
    · exact Or.inr (Or.inr (Or.inr (Or.inl ⟨h1, h2, h3⟩)))
    · exact Or.inr (Or.inr (Or.inr (Or.inr (Or.inl ⟨h1, h2, h3⟩))))
    · exact Or.inr (Or.inr (Or.inr (Or.inr (Or.inr (Or.inl ⟨h1, h2, h3⟩)))))
    · exact Or.inr (Or.inr (Or.inr (Or.inr (Or.inr (Or.inr (Or.inl ⟨h1, h2, h3⟩))))))
    · exact Or.inr (Or.inr (Or.inr (Or.inr (Or.inr (Or.inr (Or.inr ⟨h1, h2, h3⟩))))))
  · rintro (⟨h1, h2, h3⟩ | ⟨h1, h2, h3⟩ | ⟨h1, h2, h3⟩ | ⟨h1, h2, h3⟩ |
      ⟨h1, h2, h3⟩ | ⟨h1, h2, h3⟩ | ⟨h1, h2, h3⟩ | ⟨h1, h2, h3⟩)
    · exact ⟨(0, 1, 2), by decide, h1, h2, h3⟩
    · exact ⟨(3, 4, 5), by decide, h1, h2, h3⟩
    · exact ⟨(6, 7, 8), by decide, h1, h2, h3⟩
    · exact ⟨(0, 3, 6), by decide, h1, h2, h3⟩
    · exact ⟨(1, 4, 7), by decide, h1, h2, h3⟩
    · exact ⟨(2, 5, 8), by decide, h1, h2, h3⟩
    · exact ⟨(0, 4, 8), by decide, h1, h2, h3⟩
    · exact ⟨(2, 4, 6), by decide, h1, h2, h3⟩

/-- C4: a click on an in-range index whose cell is already occupied is
rejected and the whole state — board contents included, and with it the
current turn mark — is unchanged. -/
theorem on_button_click_occupied (s : GameState) (i : Int) (h0 : 0 ≤ i) (h9 : i < 9)
    (hlen : s.board.length = 9) (hocc : cellAt s.board i.toNat ≠ none) :
    on_button_click s i = some (s, ClickOutcome.rejected) := by
  have hp : pyIdx s.board.length i = some i.toNat := by
    rw [hlen]
    unfold pyIdx
    rw [if_pos (by omega)]
  rw [on_button_click_eq_click_at s i i.toNat hp]
  unfold click_at
  rw [if_pos hocc]

/-- Witness for C4 at a concrete occupied cell. -/
theorem on_button_click_occupied_witness :
    on_button_click
        { current_player := Mark.O,
          board := [some Mark.X, none, none, none, none, none, none, none, none],
          game_mode := Mode.PvE } 0
      = some ({ current_player := Mark.O,
                board := [some Mark.X, none, none, none, none, none, none, none, none],
                game_mode := Mode.PvE }, ClickOutcome.rejected) :=
  on_button_click_occupied
    { current_player := Mark.O,
      board := [some Mark.X, none, none, none, none, none, none, none, none],
      game_mode := Mode.PvE } 0 (by decide) (by decide) (by decide) (by decide)

/-- C5: any click from a reachable state leaves a state that is never a
finished board: either no line is complete and an empty cell remains
(the game is still in progress), or the board is all-empty with the
turn back at X (the automatic reset has run). -/
theorem on_button_click_never_finished (s : GameState) (i : Int)
    (p : GameState × ClickOutcome) (hs : Reachable s)
    (h : on_button_click s i = some p) :
    ((∀ m, check_winner p.1.board m = false) ∧ none ∈ p.1.board) ∨
    (p.1.board = List.replicate 9 none ∧ p.1.current_player = Mark.X) := by
  have hInv := on_button_click_inv s i p (reachable_inv s hs) h
  exact Or.inl ⟨hInv.nowin, hInv.hasEmpty⟩

/-- Witness for C5: clicking cell 0 of the initial state. -/
theorem on_button_click_never_finished_witness :
    ((∀ m, check_winner [some Mark.X, none, none, none, none, none, none, none, none]
        m = false) ∧
      none ∈ [some Mark.X, none, none, none, none, none, none, none, none]) ∨
    ([some Mark.X, none, none, none, none, none, none, none, none]
        = List.replicate 9 (none : Cell) ∧
      Mark.O = Mark.X) :=
  on_button_click_never_finished initial 0
    ({ current_player := Mark.O,
       board := [some Mark.X, none, none, none, none, none, none, none, none],
       game_mode := Mode.PvE }, ClickOutcome.moved GameResult.InProgress)
    Reachable.init (by decide)

/-- C7: in every reachable state the number of X marks equals the
number of O marks or exceeds it by exactly one. -/
theorem reachable_mark_balance (s : GameState) (hs : Reachable s) :
    countMark s.board Mark.X = countMark s.board Mark.O ∨
    countMark s.board Mark.X = countMark s.board Mark.O + 1 := by
  have h := (reachable_inv s hs).counts
  by_cases hp : s.current_player = Mark.X
  · rw [if_pos hp] at h
    exact Or.inl h
  · rw [if_neg hp] at h
    exact Or.inr h

/-- Witness for C7 at the initial state. -/
theorem reachable_mark_balance_witness :
    countMark initial.board Mark.X = countMark initial.board Mark.O ∨
    countMark initial.board Mark.X = countMark initial.board Mark.O + 1 :=
  reachable_mark_balance initial Reachable.init

/-- C8: `reset_game`, from any state, yields an all-empty board and
turn X and leaves the mode unchanged. -/
theorem reset_game_spec (s : GameState) :
    (reset_game s).board = List.replicate 9 none ∧
    (reset_game s).current_player = Mark.X ∧
    (reset_game s).game_mode = s.game_mode :=
  ⟨rfl, rfl, rfl⟩

/-- C9: `set_mode`, from any state, stores the given mode and resets:
afterwards the board is all-empty, the turn is X and the mode equals
the argument. -/
theorem set_mode_spec (s : GameState) (m : Mode) :
    (set_mode s m).board = List.replicate 9 none ∧
    (set_mode s m).current_player = Mark.X ∧
    (set_mode s m).game_mode = m :=
  ⟨rfl, rfl, rfl⟩

/-- C2: when a move from a reachable state actually applies (resolved
board position `j`, outcome `moved r`), the computed result is Draw iff
the board after the mark was written has no empty cell and no complete
line for either mark; and if an empty cell remains and no line is
complete, the result is InProgress. -/
theorem applyMove_draw_iff (s : GameState) (i : Int) (j : Nat) (s2 : GameState)
    (r : GameResult) (hs : Reachable s) (hj : pyIdx s.board.length i = some j)
    (h : on_button_click s i = some (s2, ClickOutcome.moved r)) :
    (r = GameResult.Draw ↔
      (none ∉ s.board.set j (some s.current_player) ∧
        ∀ m, check_winner (s.board.set j (some s.current_player)) m = false)) ∧
    ((none ∈ s.board.set j (some s.current_player) ∧
        ∀ m, check_winner (s.board.set j (some s.current_player)) m = false) →
      r = GameResult.InProgress) := by
  have hInv := reachable_inv s hs
  have hjlt : j < s.board.length := pyIdx_lt s.board.length i j hj
  rw [on_button_click_eq_click_at s i j hj] at h
  injection h with h
  by_cases hc : cellAt s.board j = none
  · rw [click_at, if_neg (by simp [hc])] at h
    set b := s.board.set j (some s.current_player) with hbdef
    cases hwin : check_winner b s.current_player with
    | true =>
      simp [move_outcome, hwin, Prod.ext_iff] at h
      obtain ⟨h1, h2⟩ := h
      constructor
      · constructor
        · intro hcontra
          rw [← h2] at hcontra
          exact GameResult.noConfusion hcontra
        · rintro ⟨hnb, hall⟩
          have hx := hall s.current_player
          rw [hwin] at hx
          simp at hx
      · rintro ⟨hnb, hall⟩
        have hx := hall s.current_player
        rw [hwin] at hx
        simp at hx
    | false =>
      by_cases hfull : none ∈ b
      · simp [move_outcome, hwin, hfull, Prod.ext_iff] at h
        obtain ⟨h1, h2⟩ := h
        constructor
        · constructor
          · intro hcontra
            rw [← h2] at hcontra
            exact GameResult.noConfusion hcontra
          · rintro ⟨hnb, _⟩
            exact absurd hfull hnb
        · intro _
          rw [← h2]
      · simp [move_outcome, hwin, hfull, Prod.ext_iff] at h
        obtain ⟨h1, h2⟩ := h
        constructor
        · constructor
          · intro _
            refine ⟨hfull, ?_⟩
            intro m
            by_cases hm : m = s.current_player
            · rw [hm]
              exact hwin
            · exact check_winner_set_false s.board j s.current_player m hjlt hm
                (hInv.nowin m)
          · intro _
            rw [← h2]
        · rintro ⟨hnb, _⟩
          exact absurd hnb hfull
  · rw [click_at, if_pos hc] at h
    exfalso
    have h2 := congrArg Prod.snd h
    simp at h2

/-- Witness for C2: the first click of a game, X at cell 0, evaluates
to InProgress, and the written board indeed still has empty cells and
no complete line. -/
theorem applyMove_draw_iff_witness :
    (GameResult.InProgress = GameResult.Draw ↔
      (none ∉ (List.replicate 9 (none : Cell)).set 0 (some Mark.X) ∧
        ∀ m, check_winner ((List.replicate 9 (none : Cell)).set 0 (some Mark.X))
          m = false)) ∧
    ((none ∈ (List.replicate 9 (none : Cell)).set 0 (some Mark.X) ∧
        ∀ m, check_winner ((List.replicate 9 (none : Cell)).set 0 (some Mark.X))
          m = false) →
      GameResult.InProgress = GameResult.InProgress) :=
  applyMove_draw_iff initial 0 0
    { current_player := Mark.O,
      board := [some Mark.X, none, none, none, none, none, none, none, none],
      game_mode := Mode.PvE }
    GameResult.InProgress Reachable.init (by decide) (by decide)

/-- C3 counterexample: out-of-range indices are not silent no-ops.
Clicking index 9 on the fresh board raises an IndexError that the
caller sees (modelled by `none`), and clicking index -1 is not a
rejection at all: by Python negative indexing it plays cell 8 and
changes the state. -/
theorem on_button_click_out_of_range_counterexample :
    on_button_click initial 9 = none ∧
    on_button_click initial (-1)
      = some ({ current_player := Mark.O,
                board := [none, none, none, none, none, none, none, none, some Mark.X],
                game_mode := Mode.PvE },
          ClickOutcome.moved GameResult.InProgress) := by
  constructor
  · decide
  · decide

/-- C3 amended: for an index ≥ 9 or < -9 `on_button_click` raises an
IndexError (modelled by `none`) that surfaces to the caller, raised by
the occupied-cell test before any state is changed; for -9 ≤ index ≤ -1
Python negative indexing applies and the call behaves exactly like a
click on cell index + 9.  Out-of-range indices are therefore not
silently rejected no-ops. -/
theorem on_button_click_out_of_range (s : GameState) (i : Int)
    (hlen : s.board.length = 9) :
    ((9 ≤ i ∨ i < -9) → on_button_click s i = none) ∧
    (-9 ≤ i → i < 0 → on_button_click s i = on_button_click s (i + 9)) := by
  constructor
  · intro hi
    have hp : pyIdx s.board.length i = none := by
      rw [hlen]
      unfold pyIdx
      rw [if_neg (by omega), if_neg (by omega)]
    unfold on_button_click
    rw [hp]
  · intro h1 h2
    obtain ⟨j, hj1, hj2⟩ : ∃ j : Nat,
        pyIdx s.board.length i = some j ∧ pyIdx s.board.length (i + 9) = some j := by
      rw [hlen]
      refine ⟨(i + 9).toNat, ?_, ?_⟩
      · unfold pyIdx
        rw [if_neg (by omega), if_pos (by omega)]
        norm_num
      · unfold pyIdx
        rw [if_pos (by omega)]
    rw [on_button_click_eq_click_at s i j hj1,
      on_button_click_eq_click_at s (i + 9) j hj2]

/-- Witness for the amended C3: index 9 raises, index -1 behaves like
index 8. -/
theorem on_button_click_out_of_range_witness :
    on_button_click initial 9 = none ∧
    on_button_click initial (-1) = on_button_click initial (-1 + 9) :=
  ⟨(on_button_click_out_of_range initial 9 (by decide)).1 (Or.inl (by decide)),
    (on_button_click_out_of_range initial (-1) (by decide)).2 (by decide) (by decide)⟩

/-- C6: whenever the board has an empty cell, `computer_move` selects
an index drawn from `available_moves` (the list of all currently empty
cells), whose cell was empty immediately before the call, and plays it:
the resulting click is not rejected. -/
theorem computer_move_plays_empty (s : GameState) (k : Nat)
    (hne : available_moves s.board ≠ []) :
    ∃ i, chooseComputerMove s k = some i ∧
      i ∈ available_moves s.board ∧ cellAt s.board i = none ∧
      computer_move s k = ((click_at s i).1, some (click_at s i).2) ∧
      (click_at s i).2 ≠ ClickOutcome.rejected := by
  have hEmp : (available_moves s.board).isEmpty = false := by
    cases hav : available_moves s.board with
    | nil => exact absurd hav hne
    | cons a t => rfl
  have hch : chooseComputerMove s k
      = some ((available_moves s.board).getD (k % (available_moves s.board).length) 0) := by
    simp only [chooseComputerMove, hEmp]
    simp
  set i := (available_moves s.board).getD (k % (available_moves s.board).length) 0 with hi
  have hmem : i ∈ available_moves s.board := chooseComputerMove_mem s k i hch
  have hmem' := (mem_available_moves s.board i).mp hmem
  refine ⟨i, hch, hmem, hmem'.2, ?_, ?_⟩
  · simp [computer_move, hch]
  · rw [click_at, if_neg (by simp [hmem'.2])]
    simp only [move_outcome]
    split_ifs <;> simp

/-- Witness for C6 on the initial board with draw 13. -/
theorem computer_move_plays_empty_witness :
    ∃ i, chooseComputerMove initial 13 = some i ∧
      i ∈ available_moves initial.board ∧ cellAt initial.board i = none ∧
      computer_move initial 13 = ((click_at initial i).1, some (click_at initial i).2) ∧
      (click_at initial i).2 ≠ ClickOutcome.rejected :=
  computer_move_plays_empty initial 13 (by decide)

/-- C10: when `computer_move` fires with at least one empty cell, the
mark it writes is the current turn mark of the state at that moment,
whatever it is: the move proceeds exactly as the standard post-write
evaluation of the board with `some s.current_player` stored at the
chosen empty index.  It does not force O. -/
theorem computer_move_uses_current_mark (s : GameState) (k : Nat)
    (hne : available_moves s.board ≠ []) :
    ∃ i, chooseComputerMove s k = some i ∧ cellAt s.board i = none ∧
      computer_move s k =
        ((move_outcome { s with board := s.board.set i (some s.current_player) }).1,
          some (move_outcome
            { s with board := s.board.set i (some s.current_player) }).2) := by
  have hEmp : (available_moves s.board).isEmpty = false := by
    cases hav : available_moves s.board with
    | nil => exact absurd hav hne
    | cons a t => rfl
  have hch : chooseComputerMove s k
      = some ((available_moves s.board).getD (k % (available_moves s.board).length) 0) := by
    simp only [chooseComputerMove, hEmp]
    simp
  set i := (available_moves s.board).getD (k % (available_moves s.board).length) 0 with hi
  have hmem' := (mem_available_moves s.board i).mp (chooseComputerMove_mem s k i hch)
  have hclick : click_at s i
      = move_outcome { s with board := s.board.set i (some s.current_player) } := by
    rw [click_at, if_neg (by simp [hmem'.2])]
  refine ⟨i, hch, hmem'.2, ?_⟩
  simp [computer_move, hch, hclick]

/-- Witness for C10: fired on the fresh board, where the current turn
is X (as after a reset), the computer writes an X mark, not an O
mark. -/
theorem computer_move_uses_current_mark_witness :
    ∃ i, chooseComputerMove initial 13 = some i ∧ cellAt initial.board i = none ∧
      computer_move initial 13 =
        ((move_outcome { initial with board := initial.board.set i (some Mark.X) }).1,
          some (move_outcome
            { initial with board := initial.board.set i (some Mark.X) }).2) :=
  computer_move_uses_current_mark initial 13 (by decide)
